import Mathlib

/-!
Shallow embedding of the whatwillitmeantome analysis pipeline
(`src/actions/ai/handle-mistral-actions.ts`, `src/actions/db/usage-actions.ts`,
`src/app/(marketing)/actions-whatwillitmeantome.ts`).

Strings are modelled as `List Char`; the JavaScript regular-expression
replacements used by the section scanner and the text cleaner are implemented
as total recursive scanners with the same left-to-right, leftmost-match
semantics.  Numbers flowing through input validation are modelled as `ℚ`.
The remote completion call, the environment lookup and the database write are
modelled by explicit outcome parameters.
-/

namespace Wwim

/-- JS `\s` / `String.prototype.trim` whitespace for the ASCII character set
    handled by this pipeline. -/
def isWsChar (c : Char) : Bool :=
  c = ' ' || c = '\t' || c = '\n' || c = '\r'

/-- JS `\d`. -/
def isDigitChar (c : Char) : Bool :=
  '0' ≤ c && c ≤ '9'

/-- Drop leading whitespace (the effect of a greedy `\s*`). -/
def skipWs (cs : List Char) : List Char :=
  cs.dropWhile isWsChar

/-- JS `String.prototype.trim` on the character list. -/
def trimChars (cs : List Char) : List Char :=
  ((cs.dropWhile isWsChar).reverse.dropWhile isWsChar).reverse

/-- JS `String.prototype.split('\n')`: `""` yields `[""]`, a trailing
    newline yields a trailing empty line. -/
def splitNlChars : List Char → List (List Char)
  | [] => [[]]
  | '\n' :: cs => [] :: splitNlChars cs
  | c :: cs =>
    match splitNlChars cs with
    | l :: ls => (c :: l) :: ls
    | [] => [[c]]

/-- JS `Array.prototype.join('\n')`. -/
def joinNl : List (List Char) → List Char
  | [] => []
  | [l] => l
  | l :: ls => l ++ '\n' :: joinNl ls

/-- Global replace of `\r\n` by `\n` (`.replace(/\r\n/g, "\n")`). -/
def normCRLF : List Char → List Char
  | '\r' :: '\n' :: cs => '\n' :: normCRLF cs
  | c :: cs => c :: normCRLF cs
  | [] => []

/-- Global replace of `/###\s*/g` by `""`: every occurrence of `###` is
    deleted together with the maximal whitespace run following it (JS `\s`
    includes newlines).  The `Bool` flag records whether the scanner is
    currently inside the whitespace run following a deleted `###`. -/
def stripHashesGo : Bool → List Char → List Char
  | _, [] => []
  | skip, '#' :: '#' :: '#' :: rest => stripHashesGo true rest
  | skip, c :: cs =>
    if skip && isWsChar c then stripHashesGo true cs
    else c :: stripHashesGo false cs

/-- The raw-completion preprocessing of the parser:
    `raw.replace(/###\s*/g, "").replace(/\r\n/g, "\n")`. -/
def preprocessChars (cs : List Char) : List Char :=
  normCRLF (stripHashesGo false cs)

/-! ### Section header recognition

`line.match(/^(?:\d+[\.\)]\s*)?(?:(General Outlook|Potential Benefits and
Risks|Steps to Adapt|Placard)\s*:)/i)` on the trimmed line. -/

/-- The four recognized section names (the lower-cased keys of
    `allSections`). -/
inductive SectionName
  | outlook
  | benefits
  | steps
  | placard
deriving DecidableEq

/-- Case-insensitive literal match: `pat` is a lower-case pattern; on success
    returns the unconsumed remainder of the input. -/
def matchCI : List Char → List Char → Option (List Char)
  | [], cs => some cs
  | _ :: _, [] => none
  | p :: ps, c :: cs => if c.toLower = p then matchCI ps cs else none

/-- The `\s*:` that must follow the captured section name. -/
def colonAfterWs (cs : List Char) : Bool :=
  match skipWs cs with
  | ':' :: _ => true
  | _ => false

/-- Try the four alternatives of the header regex at the current position.
    No section name is a prefix of another (case-insensitively), so at most
    one alternative can match and sequential trial is faithful to the
    regex alternation. -/
def tryName (cs : List Char) : Option SectionName :=
  match matchCI "general outlook".data cs with
  | some rest => if colonAfterWs rest then some .outlook else none
  | none =>
    match matchCI "potential benefits and risks".data cs with
    | some rest => if colonAfterWs rest then some .benefits else none
    | none =>
      match matchCI "steps to adapt".data cs with
      | some rest => if colonAfterWs rest then some .steps else none
      | none =>
        match matchCI "placard".data cs with
        | some rest => if colonAfterWs rest then some .placard else none
        | none => none

/-- The optional ordinal prefix `\d+[\.\)]\s*`.  Greedy `\d+` followed by a
    mandatory `.` or `)`; only the maximal digit run can be followed by a
    non-digit, so no backtracking is needed. -/
def parseOrdinal (cs : List Char) : Option (List Char) :=
  match cs.takeWhile isDigitChar, cs.dropWhile isDigitChar with
  | [], _ => none
  | _ :: _, p :: rest => if p = '.' || p = ')' then some (skipWs rest) else none
  | _ :: _, [] => none

/-- Header recognition on a trimmed line.  If the ordinal prefix parses but
    no section name follows, the regex backtracks to the prefix-less
    alternative (which then fails on the leading digit). -/
def headerOf (cs : List Char) : Option SectionName :=
  match parseOrdinal cs with
  | some rest =>
    match tryName rest with
    | some s => some s
    | none => tryName cs
  | none => tryName cs

/-! ### The line scanner (`allSections` accumulation loop) -/

/-- The `allSections` record: one optional accumulated string per
    lower-cased section key (`none` models an absent key). -/
structure SectionsAcc where
  outlook : Option (List Char)
  benefits : Option (List Char)
  steps : Option (List Char)
  placard : Option (List Char)
deriving DecidableEq

def initAcc : SectionsAcc := ⟨none, none, none, none⟩

def getSec (s : SectionName) (a : SectionsAcc) : Option (List Char) :=
  match s with
  | .outlook => a.outlook
  | .benefits => a.benefits
  | .steps => a.steps
  | .placard => a.placard

def setSec (s : SectionName) (v : Option (List Char)) (a : SectionsAcc) : SectionsAcc :=
  match s with
  | .outlook => { a with outlook := v }
  | .benefits => { a with benefits := v }
  | .steps => { a with steps := v }
  | .placard => { a with placard := v }

/-- One iteration of the line loop: trim the line; a recognized header resets
    that section's accumulator and becomes the current section (the header
    line itself is skipped); otherwise, inside a section, the trimmed line
    plus `"\n"` is appended to the current section's accumulator. -/
def stepLine (st : Option SectionName × SectionsAcc) (rawLine : List Char) :
    Option SectionName × SectionsAcc :=
  let line := trimChars rawLine
  match headerOf line with
  | some sec => (some sec, setSec sec (some []) st.2)
  | none =>
    match st.1 with
    | some sec =>
      (some sec, setSec sec (some ((getSec sec st.2).getD [] ++ line ++ ['\n'])) st.2)
    | none => st

/-- The full line loop over the split lines. -/
def scanLines (lines : List (List Char)) : SectionsAcc :=
  (lines.foldl stepLine (none, initAcc)).2

/-- `parseSections`: preprocessing, split into lines, line loop. -/
def parseSections (raw : String) : SectionsAcc :=
  scanLines (splitNlChars (preprocessChars raw.data))

/-- `section.content`: `""` when the key is absent or accumulated empty
    (JS truthiness), otherwise the trimmed accumulation. -/
def sectionContent (v : Option (List Char)) : List Char :=
  match v with
  | none => []
  | some t => if t = [] then [] else trimChars t

/-! ### The text cleaner (`cleanText`, enhanced variant)

`cleanText` first normalizes (`\r\n`→`\n`, collapse `\n\s*\n` to `\n\n`,
trim), converts `- ` bullet lines to `<li>` items, wraps consecutive items
in a `<ul>` container, then converts `**`/`*` emphasis to tags, `Benefits:` /
`Risks:` line heads to `<h4>` headings and bolds numbered-list prefixes. -/

/-- Per-whitespace-run effect of the global greedy `\n\s*\n` → `"\n\n"`:
    within one maximal whitespace run containing at least two newlines the
    match stretches from the first to the last newline. -/
def collapseRun (run : List Char) : List Char :=
  if 2 ≤ run.count '\n' then
    run.takeWhile (· ≠ '\n') ++ '\n' :: '\n' :: (run.reverse.takeWhile (· ≠ '\n')).reverse
  else run

/-- Global `\n\s*\n` → `"\n\n"`; the first argument accumulates the current
    whitespace run in reverse. -/
def collapseGo (run : List Char) : List Char → List Char
  | [] => collapseRun run.reverse
  | c :: cs =>
    if isWsChar c then collapseGo (c :: run) cs
    else collapseRun run.reverse ++ c :: collapseGo [] cs

def collapseBlank (cs : List Char) : List Char :=
  collapseGo [] cs

/-- Scanner modes for the bullet-line replacement `/^-\s+(.*?)$/gm` →
    `"<li>$1</li>"`: at a line start, after a `-` the greedy `\s+` may run
    across newlines and the lazy `(.*?)$` captures the rest of the line in
    which the whitespace run ends. -/
inductive BMode
  | start
  | mid
  | skipws
  | cap

def bulletizeGo : BMode → List Char → List Char
  | .skipws, [] => "<li></li>".data
  | .cap, [] => "</li>".data
  | _, [] => []
  | .start, '-' :: c :: cs =>
    if isWsChar c then bulletizeGo .skipws (c :: cs)
    else '-' :: bulletizeGo .mid (c :: cs)
  | .start, ['-'] => ['-']
  | .start, c :: cs => c :: bulletizeGo (if c = '\n' then .start else .mid) cs
  | .mid, c :: cs => c :: bulletizeGo (if c = '\n' then .start else .mid) cs
  | .skipws, c :: cs =>
    if isWsChar c then bulletizeGo .skipws cs
    else "<li>".data ++ c :: bulletizeGo .cap cs
  | .cap, c :: cs =>
    if c = '\n' then "</li>".data ++ '\n' :: bulletizeGo .start cs
    else c :: bulletizeGo .cap cs

def bulletize (cs : List Char) : List Char :=
  bulletizeGo .start cs

def ulOpen : List Char := "<ul class=\"pl-5 list-disc\">".data

/-- The list-wrapping loop over lines: consecutive `<li>` lines are wrapped
    in one `<ul>` container, closed when the run ends or at end of input. -/
def wrapAux : Bool → List (List Char) → List (List Char)
  | inList, [] => if inList then ["</ul>".data] else []
  | inList, l :: ls =>
    if "<li>".data.isPrefixOf l then
      if inList then l :: wrapAux true ls
      else ulOpen :: l :: wrapAux true ls
    else
      if inList then "</ul>".data :: l :: wrapAux false ls
      else l :: wrapAux false ls

def wrapLists (cs : List Char) : List Char :=
  joinNl (wrapAux false (splitNlChars cs))

/-- Lazy search for the closing `**` of a bold span; `.` does not cross a
    newline.  Returns the captured group and the remainder. -/
def closeBold : List Char → Option (List Char × List Char)
  | '*' :: '*' :: cs => some ([], cs)
  | [] => none
  | c :: cs =>
    if c = '\n' then none
    else (closeBold cs).map (fun g => (c :: g.1, g.2))

/-- Global `\*\*(.*?)\*\*` → `"<strong>$1</strong>"`, fuelled by the input
    length (each step consumes at least one character). -/
def boldGo : Nat → List Char → List Char
  | _, [] => []
  | 0, cs => cs
  | fuel + 1, '*' :: '*' :: cs =>
    match closeBold cs with
    | some (g, rest) => "<strong>".data ++ g ++ "</strong>".data ++ boldGo fuel rest
    | none => '*' :: boldGo fuel ('*' :: cs)
  | fuel + 1, c :: cs => c :: boldGo fuel cs

def boldRepl (cs : List Char) : List Char :=
  boldGo cs.length cs

/-- Lazy search for the closing `*` of an italic span. -/
def closeItal : List Char → Option (List Char × List Char)
  | '*' :: cs => some ([], cs)
  | [] => none
  | c :: cs =>
    if c = '\n' then none
    else (closeItal cs).map (fun g => (c :: g.1, g.2))

/-- Global `\*(.*?)\*` → `"<em>$1</em>"`. -/
def italGo : Nat → List Char → List Char
  | _, [] => []
  | 0, cs => cs
  | fuel + 1, '*' :: cs =>
    match closeItal cs with
    | some (g, rest) => "<em>".data ++ g ++ "</em>".data ++ italGo fuel rest
    | none => '*' :: italGo fuel cs
  | fuel + 1, c :: cs => c :: italGo fuel cs

def italRepl (cs : List Char) : List Char :=
  italGo cs.length cs

/-- Per-line effect of `/^(Benefits|Risks):/gm` →
    `<h4 class="...">$1:</h4>` (case-sensitive, anchored at line start). -/
def h4Line (l : List Char) : List Char :=
  if "Benefits:".data.isPrefixOf l then
    "<h4 class=\"text-base font-semibold mt-4 mb-2\">Benefits:</h4>".data ++ l.drop 9
  else if "Risks:".data.isPrefixOf l then
    "<h4 class=\"text-base font-semibold mt-4 mb-2\">Risks:</h4>".data ++ l.drop 6
  else l

def h4Repl (cs : List Char) : List Char :=
  joinNl ((splitNlChars cs).map h4Line)

/-- The numbered-list prefix `^(\d+\.)\s+` at a line start: greedy digits,
    a dot, then a greedy whitespace run that may cross newlines.  Returns
    the digits, whether the run ended with a newline (so that the position
    after the match is again a line start), and the remainder. -/
def parseNumPre (cs : List Char) : Option (List Char × Bool × List Char) :=
  match cs.takeWhile isDigitChar, cs.dropWhile isDigitChar with
  | [], _ => none
  | _ :: _, [] => none
  | ds, '.' :: rest =>
    match rest.takeWhile isWsChar, rest.dropWhile isWsChar with
    | [], _ => none
    | w :: ws, rest2 => some (ds, (w :: ws).getLast (by simp) = '\n', rest2)
  | _ :: _, _ :: _ => none

/-- Global `^(\d+\.)\s+` → `"<strong>$1</strong> "`. -/
def numGo : Nat → Bool → List Char → List Char
  | _, _, [] => []
  | 0, _, cs => cs
  | fuel + 1, atStart, c :: cs =>
    if atStart then
      match parseNumPre (c :: cs) with
      | some (ds, nlEnd, rest) =>
        "<strong>".data ++ ds ++ '.' :: "</strong> ".data ++ numGo fuel nlEnd rest
      | none => c :: numGo fuel (c = '\n') cs
    else c :: numGo fuel (c = '\n') cs

def numRepl (cs : List Char) : List Char :=
  numGo cs.length true cs

/-- The full `cleanText` pipeline on character lists. -/
def cleanChars (cs : List Char) : List Char :=
  if cs = [] then []
  else
    numRepl (h4Repl (italRepl (boldRepl (wrapLists (bulletize
      (trimChars (collapseBlank (normCRLF cs))))))))

/-- `cleanText` on strings (`if (!text) return ""` is the empty-list
    guard). -/
def cleanText (s : String) : String :=
  ⟨cleanChars s.data⟩

/-! ### Report assembly and the server actions -/

/-- The structured response forwarded to the presentation layer. -/
structure MistralResponse where
  profession : String
  outlook : String
  benefitsAndRisks : String
  steps : String
  placard : String
deriving DecidableEq

/-- The success/failure envelope returned by every server action. -/
structure ActionState (α : Type) where
  isSuccess : Bool
  message : String
  data : Option α
deriving DecidableEq

/-- The fixed fallback literal substituted for an empty cleaned section. -/
def fallbackFor : SectionName → String
  | .outlook => "No general outlook found."
  | .benefits => "No benefits and risks analysis found."
  | .steps => "No steps found."
  | .placard => "No placard summary found."

/-- The cleaned extracted content of one section of the raw completion. -/
def cleanedSection (raw : String) (s : SectionName) : List Char :=
  cleanChars (sectionContent (getSec s (parseSections raw)))

/-- JS `cleaned || fallback`: the empty string is falsy. -/
def assembleField (cleaned : List Char) (fb : String) : String :=
  if cleaned = [] then fb else ⟨cleaned⟩

/-- The final typed result object built from the raw completion. -/
def buildReport (profession raw : String) : MistralResponse :=
  { profession := profession
    outlook := assembleField (cleanedSection raw .outlook) (fallbackFor .outlook)
    benefitsAndRisks := assembleField (cleanedSection raw .benefits) (fallbackFor .benefits)
    steps := assembleField (cleanedSection raw .steps) (fallbackFor .steps)
    placard := assembleField (cleanedSection raw .placard) (fallbackFor .placard) }

/-- Field projection of the report by section name. -/
def fieldOf (r : MistralResponse) : SectionName → String
  | .outlook => r.outlook
  | .benefits => r.benefitsAndRisks
  | .steps => r.steps
  | .placard => r.placard

/-- Input validation, in source order with short-circuit
    (`!profession` / range checks / `!region` / range checks). -/
def validate (profession : String) (experience : ℚ) (region : String)
    (skillLevel : ℚ) : Option String :=
  if profession = "" then some "Profession is required."
  else if experience < 0 ∨ experience > 50 then
    some "Experience must be between 0 and 50 years."
  else if region = "" then some "Region is required."
  else if skillLevel < 1 ∨ skillLevel > 10 then
    some "Skill level must be between 1 and 10."
  else none

/-- Outcome of awaiting `createUsageLogAction` from `handleMistralAction`:
    it resolves with a success or failure envelope, or rejects (modelling a
    thrown error, swallowed by the inner `try`/`catch`). -/
inductive UsageOutcome
  | ok
  | dbFail (e : String)
  | thrown (e : String)
deriving DecidableEq

/-- Outcome of the race between the chat-completion call and the 25 s
    timer: the timer wins, the call rejects with an API error, or the call
    resolves (with or without a first-choice message content; `some ""`
    models a present but empty content, which is falsy). -/
inductive RemoteOutcome
  | timeout
  | err (e : String)
  | ok (content : Option String)
deriving DecidableEq

/-- The ambient environment of one invocation. -/
structure Env where
  apiKey : Option String
  usage : UsageOutcome
  remote : RemoteOutcome
deriving DecidableEq

/-- Server-side diagnostic log entries relevant to the claims. -/
inductive LogEvent
  | usageWarn (e : String)
  | apiErrorLog (e : String)
deriving DecidableEq

def TIMEOUT_MS : Nat := 25000

/-- The message of the Error the timeout promise rejects with. -/
def timeoutMessage : String :=
  "Request to Mistral API timed out after " ++ toString TIMEOUT_MS ++ "ms"

/-- The `console.warn` entry produced when the usage-log call throws; its
    envelope (success or failure) is discarded either way. -/
def usageLogsOf : UsageOutcome → List LogEvent
  | .thrown e => [.usageWarn e]
  | _ => []

/-- `handleMistralAction` (enhanced variant): validation, API-key lookup,
    usage logging (result ignored, throw swallowed), the raced completion
    call, response-shape check, section parsing, cleaning and defaulting.
    Returns the envelope together with the diagnostic log entries. -/
def handleMistralAction (env : Env) (profession : String) (experience : ℚ)
    (region : String) (skillLevel : ℚ) (details : Option String) :
    ActionState MistralResponse × List LogEvent :=
  match validate profession experience region skillLevel with
  | some msg => (⟨false, msg, none⟩, [])
  | none =>
    match env.apiKey with
    | none => (⟨false, "API configuration error. Please contact support.", none⟩, [])
    | some _ =>
      match env.remote with
      | .timeout =>
        (⟨false, "An error occurred while communicating with Mistral. Please try again later.",
          none⟩, usageLogsOf env.usage ++ [.apiErrorLog timeoutMessage])
      | .err e =>
        (⟨false, "An error occurred while communicating with Mistral. Please try again later.",
          none⟩, usageLogsOf env.usage ++ [.apiErrorLog e])
      | .ok content =>
        match content with
        | none => (⟨false, "Failed to get a valid AI response.", none⟩, usageLogsOf env.usage)
        | some raw =>
          if raw = "" then
            (⟨false, "Failed to get a valid AI response.", none⟩, usageLogsOf env.usage)
          else
            (⟨true, "Analysis completed successfully", some (buildReport profession raw)⟩,
              usageLogsOf env.usage)

/-- Outcome of the Drizzle insert inside `createUsageLogAction`. -/
inductive DbOutcome
  | ok
  | raise (e : String)
deriving DecidableEq

/-- `createUsageLogAction`: the insert is tried; a throw is caught and turned
    into a failure envelope with a fixed message. -/
def createUsageLogAction (db : DbOutcome) (eventType : String)
    (userId : Option String) : ActionState Unit :=
  match db with
  | .ok => ⟨true, "Usage log created", some ()⟩
  | .raise _ => ⟨false, "Failed to create usage log", none⟩

/-- `onShareAction`: logs a `shared_<network>` usage event and returns the
    usage-log envelope unchanged. -/
def onShareAction (db : DbOutcome) (network : String) : ActionState Unit :=
  createUsageLogAction db ("shared_" ++ network) none

/-! ### Auxiliary definitions used by the statements -/

/-- Every user-facing failure message of `handleMistralAction`. -/
def failureMessages : List String :=
  ["Profession is required.",
   "Experience must be between 0 and 50 years.",
   "Region is required.",
   "Skill level must be between 1 and 10.",
   "API configuration error. Please contact support.",
   "An error occurred while communicating with Mistral. Please try again later.",
   "Failed to get a valid AI response."]

/-- Substring test (contiguous subsequence). -/
def containsSeq (pat : List Char) : List Char → Bool
  | [] => pat.isEmpty
  | c :: cs => pat.isPrefixOf (c :: cs) || containsSeq pat cs

/-- The accumulated body of a run of non-header lines: each line trimmed and
    terminated by `"\n"`. -/
def bodyOf (ys : List (List Char)) : List Char :=
  (ys.map (fun l => trimChars l ++ ['\n'])).flatten

/-- The canonical spelling of each section header name. -/
def sectionTitle : SectionName → String
  | .outlook => "General Outlook"
  | .benefits => "Potential Benefits and Risks"
  | .steps => "Steps to Adapt"
  | .placard => "Placard"

/-- The rational 5/2 = 2.5, in normal form. -/
def twoPointFive : ℚ := ⟨5, 2, by decide, by decide⟩

/-- The rational 11/2 = 5.5, in normal form. -/
def fivePointFive : ℚ := ⟨11, 2, by decide, by decide⟩

/-- A character list containing at least one non-whitespace character. -/
def hasNonWs (cs : List Char) : Bool :=
  cs.any (fun c => !isWsChar c)

/-! ## Lemmas about validation -/

theorem validate_none_iff (p : String) (e : ℚ) (r : String) (s : ℚ) :
    validate p e r s = none ↔
      p ≠ "" ∧ 0 ≤ e ∧ e ≤ 50 ∧ r ≠ "" ∧ 1 ≤ s ∧ s ≤ 10 := by
  unfold validate
  split_ifs with h1 h2 h3 h4
  · simp_all
  · simp only [reduceCtorEq, false_iff]
    rintro ⟨-, he0, he50, -⟩
    rcases h2 with h | h <;> linarith
  · simp_all
  · simp only [reduceCtorEq, false_iff]
    rintro ⟨-, -, -, -, hs1, hs10⟩
    rcases h4 with h | h <;> linarith
  · push_neg at h2 h4
    exact iff_of_true rfl ⟨h1, h2.1, h2.2, h3, h4.1, h4.2⟩

theorem validate_some_mem (p : String) (e : ℚ) (r : String) (s : ℚ) (m : String)
    (h : validate p e r s = some m) : m ∈ failureMessages := by
  unfold validate at h
  split_ifs at h <;> simp_all [failureMessages]

/-! ## Claim theorems -/

/-- C3: the input validation accepts exactly when profession is non-empty,
experience is in [0,50], region is non-empty and skillLevel is in [1,10];
each violation is rejected with the message naming that field; the checks
run in the fixed order profession → experience → region → skillLevel with
the first failure short-circuiting, and a rejection is returned before any
environment lookup or network activity (the result is independent of the
environment and no log entry is produced). -/
theorem c3_validator_order :
    (∀ (p : String) (e : ℚ) (r : String) (s : ℚ),
      validate p e r s = none ↔
        p ≠ "" ∧ 0 ≤ e ∧ e ≤ 50 ∧ r ≠ "" ∧ 1 ≤ s ∧ s ≤ 10) ∧
    (∀ (p : String) (e : ℚ) (r : String) (s : ℚ), p = "" →
      validate p e r s = some "Profession is required.") ∧
    (∀ (p : String) (e : ℚ) (r : String) (s : ℚ), p ≠ "" → (e < 0 ∨ 50 < e) →
      validate p e r s = some "Experience must be between 0 and 50 years.") ∧
    (∀ (p : String) (e : ℚ) (r : String) (s : ℚ),
      p ≠ "" → 0 ≤ e → e ≤ 50 → r = "" →
      validate p e r s = some "Region is required.") ∧
    (∀ (p : String) (e : ℚ) (r : String) (s : ℚ),
      p ≠ "" → 0 ≤ e → e ≤ 50 → r ≠ "" → (s < 1 ∨ 10 < s) →
      validate p e r s = some "Skill level must be between 1 and 10.") ∧
    (∀ (env : Env) (p : String) (e : ℚ) (r : String) (s : ℚ)
      (d : Option String) (m : String),
      validate p e r s = some m →
      handleMistralAction env p e r s d = (⟨false, m, none⟩, [])) := by
  refine ⟨validate_none_iff, ?_, ?_, ?_, ?_, ?_⟩
  · intro p e r s hp
    simp [validate, hp]
  · intro p e r s hp he
    have he2 : e < 0 ∨ e > 50 := he
    simp [validate, hp, he2]
  · intro p e r s hp he0 he50 hr
    have he2 : ¬ (e < 0 ∨ e > 50) := by rintro (h | h) <;> linarith
    simp [validate, hp, he2, hr]
  · intro p e r s hp he0 he50 hr hs
    have he2 : ¬ (e < 0 ∨ e > 50) := by rintro (h | h) <;> linarith
    have hs2 : s < 1 ∨ s > 10 := hs
    simp [validate, hp, he2, hr, hs2]
  · intro env p e r s d m h
    simp [handleMistralAction, h]

theorem c3_validator_order_witness :
    (validate "" 1 "Finland" 5 = some "Profession is required.") ∧
    (validate "Nurse" 60 "Finland" 5 =
      some "Experience must be between 0 and 50 years.") ∧
    (validate "Nurse" 8 "" 5 = some "Region is required.") ∧
    (validate "Nurse" 8 "Finland" 0 =
      some "Skill level must be between 1 and 10.") ∧
    (validate "Nurse" 8 "Finland" 5 = none) ∧
    (handleMistralAction ⟨some "key", .ok, .timeout⟩ "" 1 "Finland" 5 none =
      (⟨false, "Profession is required.", none⟩, [])) := by
  refine ⟨?_, ?_, ?_, ?_, ?_, ?_⟩
  · exact c3_validator_order.2.1 "" 1 "Finland" 5 rfl
  · exact c3_validator_order.2.2.1 "Nurse" 60 "Finland" 5 (by decide)
      (Or.inr (by decide))
  · exact c3_validator_order.2.2.2.1 "Nurse" 8 "" 5 (by decide)
      (by decide) (by decide) rfl
  · exact c3_validator_order.2.2.2.2.1 "Nurse" 8 "Finland" 0 (by decide)
      (by decide) (by decide) (by decide) (Or.inl (by decide))
  · exact (c3_validator_order.1 "Nurse" 8 "Finland" 5).mpr
      ⟨by decide, by decide, by decide, by decide, by decide, by decide⟩
  · exact c3_validator_order.2.2.2.2.2 ⟨some "key", .ok, .timeout⟩ "" 1 "Finland" 5 none
      "Profession is required." (c3_validator_order.2.1 "" 1 "Finland" 5 rfl)

/-- C9: validation accepts values the data model excludes: any fractional
experience in [0,50] and fractional skillLevel in [1,10] pass because only
the range is checked, and a whitespace-only profession or region passes the
non-empty check because string truthiness only rejects the empty string. -/
theorem c9_validation_loose :
    (∀ e s : ℚ, 0 ≤ e → e ≤ 50 → 1 ≤ s → s ≤ 10 →
      validate " " e " " s = none) ∧
    (validate " " twoPointFive " " fivePointFive = none ∧
      twoPointFive.den = 2 ∧ fivePointFive.den = 2) := by
  constructor
  · intro e s he0 he50 hs1 hs10
    apply (validate_none_iff _ _ _ _).mpr
    exact ⟨by decide, he0, he50, by decide, hs1, hs10⟩
  · exact ⟨by decide, rfl, rfl⟩

theorem c9_validation_loose_witness :
    validate " " twoPointFive " " fivePointFive = none :=
  c9_validation_loose.1 twoPointFive fivePointFive
    (by decide) (by decide) (by decide) (by decide)

/-- C2: for every input and every behaviour of the environment, the remote
call and the usage logger, `handleMistralAction` returns a structured
success/failure envelope; on every failure path the message is one of a
fixed set of human-readable literals, none of which contains the name of
the missing secret (`MISTRAL_API_KEY`) or the raw error payload (the
failure messages are constants independent of the error strings carried
by the outcome). -/
theorem c2_structured_envelope :
    (∀ (env : Env) (p : String) (e : ℚ) (r : String) (s : ℚ) (d : Option String),
      ((handleMistralAction env p e r s d).1.isSuccess = true ∧
        (handleMistralAction env p e r s d).1.message =
          "Analysis completed successfully") ∨
      ((handleMistralAction env p e r s d).1.isSuccess = false ∧
        (handleMistralAction env p e r s d).1.message ∈ failureMessages ∧
        (handleMistralAction env p e r s d).1.data = none)) ∧
    failureMessages.all
      (fun m => !containsSeq "MISTRAL_API_KEY".data m.data) = true := by
  constructor
  · intro env p e r s d
    rcases hv : validate p e r s with - | m
    · obtain ⟨key, usage, remote⟩ := env
      rcases key with - | k
      · right
        refine ⟨?_, ?_, ?_⟩ <;> simp [handleMistralAction, hv, failureMessages]
      · rcases remote with - | eMsg | content
        · right
          refine ⟨?_, ?_, ?_⟩ <;> simp [handleMistralAction, hv, failureMessages]
        · right
          refine ⟨?_, ?_, ?_⟩ <;> simp [handleMistralAction, hv, failureMessages]
        · rcases content with - | raw
          · right
            refine ⟨?_, ?_, ?_⟩ <;> simp [handleMistralAction, hv, failureMessages]
          · by_cases hraw : raw = ""
            · right
              refine ⟨?_, ?_, ?_⟩ <;>
                simp [handleMistralAction, hv, hraw, failureMessages]
            · left
              constructor <;> simp [handleMistralAction, hv, hraw]
    · right
      refine ⟨?_, ?_, ?_⟩ <;>
        simp [handleMistralAction, hv, validate_some_mem p e r s m hv]
  · decide

/-- C7: when the timer wins the race the operation returns a failure
envelope (it does not hang); the timeout is handled by the same request
failure path as an API-reported error — both surface to the caller as the
same generic message — while the logged error distinguishes them (the
timeout logs the fixed timed-out message naming the 25000 ms bound); a
response missing the first choice's message content (or carrying an empty
one) fails closed with a failure envelope carrying no data. -/
theorem c7_timeout_failure (k : String) (u : UsageOutcome) (p : String)
    (e : ℚ) (r : String) (s : ℚ) (d : Option String)
    (hv : validate p e r s = none) :
    (handleMistralAction ⟨some k, u, .timeout⟩ p e r s d =
      (⟨false,
        "An error occurred while communicating with Mistral. Please try again later.",
        none⟩, usageLogsOf u ++ [.apiErrorLog timeoutMessage])) ∧
    (∀ eMsg, handleMistralAction ⟨some k, u, .err eMsg⟩ p e r s d =
      (⟨false,
        "An error occurred while communicating with Mistral. Please try again later.",
        none⟩, usageLogsOf u ++ [.apiErrorLog eMsg])) ∧
    (handleMistralAction ⟨some k, u, .ok none⟩ p e r s d =
      (⟨false, "Failed to get a valid AI response.", none⟩, usageLogsOf u)) ∧
    (handleMistralAction ⟨some k, u, .ok (some "")⟩ p e r s d =
      (⟨false, "Failed to get a valid AI response.", none⟩, usageLogsOf u)) ∧
    timeoutMessage = "Request to Mistral API timed out after 25000ms" := by
  refine ⟨?_, ?_, ?_, ?_, by decide⟩ <;>
    simp [handleMistralAction, hv]

theorem c7_timeout_failure_witness :
    validate "Nurse" 8 "Canada" 6 = none ∧
    handleMistralAction ⟨some "key", .ok, .timeout⟩ "Nurse" 8 "Canada" 6 none =
      (⟨false,
        "An error occurred while communicating with Mistral. Please try again later.",
        none⟩, [.apiErrorLog timeoutMessage]) :=
  ⟨by decide,
    (c7_timeout_failure "key" .ok "Nurse" 8 "Canada" 6 none (by decide)).1⟩

/-- C6 counterexample: when the usage-log insert fails, `onShareAction`
returns the usage logger's failure envelope, not a success envelope — the
claim that it still returns a success envelope is false at this input. -/
theorem c6_share_counterexample :
    (onShareAction (.raise "db down") "twitter").isSuccess = false := by
  decide

/-- C6 (amended): a usage-logger failure never affects report generation —
the envelope of `handleMistralAction` is independent of the usage outcome,
and with a successful remote call it is a success envelope for every usage
outcome (including a throw); `onShareAction` never throws and always
returns a structured envelope, but when the insert fails that envelope
reports failure with the fixed message `"Failed to create usage log"`,
since the usage-log write is the share action's primary operation. -/
theorem c6_logging_isolated :
    (∀ (env : Env) (u : UsageOutcome) (p : String) (e : ℚ) (r : String)
      (s : ℚ) (d : Option String),
      (handleMistralAction ⟨env.apiKey, u, env.remote⟩ p e r s d).1 =
        (handleMistralAction env p e r s d).1) ∧
    (∀ (k raw : String) (u : UsageOutcome) (p : String) (e : ℚ) (r : String)
      (s : ℚ) (d : Option String),
      validate p e r s = none → raw ≠ "" →
      (handleMistralAction ⟨some k, u, .ok (some raw)⟩ p e r s d).1 =
        ⟨true, "Analysis completed successfully", some (buildReport p raw)⟩) ∧
    (∀ (e network : String),
      onShareAction (.raise e) network =
        ⟨false, "Failed to create usage log", none⟩) := by
  refine ⟨?_, ?_, ?_⟩
  · intro env u p e r s d
    rcases hv : validate p e r s with - | m
    · obtain ⟨key, usage, remote⟩ := env
      rcases key with - | k
      · simp [handleMistralAction, hv]
      · rcases remote with - | eMsg | content
        · simp [handleMistralAction, hv]
        · simp [handleMistralAction, hv]
        · rcases content with - | raw
          · simp [handleMistralAction, hv]
          · by_cases hraw : raw = "" <;> simp [handleMistralAction, hv, hraw]
    · simp [handleMistralAction, hv]
  · intro k raw u p e r s d hv hraw
    simp [handleMistralAction, hv, hraw]
  · intro e network
    rfl

theorem c6_logging_isolated_witness :
    validate "Nurse" 8 "Canada" 6 = none ∧ ("Hello" : String) ≠ "" ∧
    (handleMistralAction ⟨some "key", .thrown "log boom", .ok (some "Hello")⟩
        "Nurse" 8 "Canada" 6 none).1 =
      ⟨true, "Analysis completed successfully", some (buildReport "Nurse" "Hello")⟩ :=
  ⟨by decide, by decide,
    c6_logging_isolated.2.1 "key" "Hello" (.thrown "log boom") "Nurse" 8 "Canada" 6
      none (by decide) (by decide)⟩

/-- C5: the text cleaner is not idempotent — on the bullet-list input
`"- a"` the first application produces a `<ul>`-wrapped `<li>` item and the
second application wraps the `<li>` line in a further nested `<ul>`
container, so repeated cleaning alters already-cleaned text. -/
theorem c5_cleaner_not_idempotent :
    cleanText (cleanText "- a") ≠ cleanText "- a" := by
  decide

/-! ## Lemmas about header recognition -/

theorem toLower_of_ws (c : Char) (h : isWsChar c = true) : c.toLower = c := by
  simp [isWsChar] at h
  rcases h with ((h | h) | h) | h <;> subst h <;> decide

theorem toLower_of_digit (c : Char) (h : isDigitChar c = true) : c.toLower = c := by
  simp [isDigitChar] at h
  obtain ⟨h1, h2⟩ := h
  have h3 : c.toNat ≤ 57 := by
    rw [Char.le_def] at h2
    have := UInt32.le_def.mp h2
    simpa [Char.toNat, UInt32.toNat] using this
  unfold Char.toLower
  rw [if_neg]
  rintro ⟨ha, -⟩
  omega

theorem map_not_ws (f : Char → Char) (hf : ∀ c, (f c).toLower = c.toLower)
    (c : Char) (h : isWsChar c.toLower = false) : isWsChar (f c) = false := by
  cases hfc : isWsChar (f c) with
  | false => rfl
  | true =>
    have h1 : (f c).toLower = f c := toLower_of_ws _ hfc
    have h2 : f c = c.toLower := by rw [← h1, hf c]
    rw [h2] at hfc
    rw [hfc] at h
    exact absurd h (by simp)

theorem map_not_digit (f : Char → Char) (hf : ∀ c, (f c).toLower = c.toLower)
    (c : Char) (h : isDigitChar c.toLower = false) : isDigitChar (f c) = false := by
  cases hfc : isDigitChar (f c) with
  | false => rfl
  | true =>
    have h1 : (f c).toLower = f c := toLower_of_digit _ hfc
    have h2 : f c = c.toLower := by rw [← h1, hf c]
    rw [h2] at hfc
    rw [hfc] at h
    exact absurd h (by simp)

theorem skipWs_ws_cons (w : List Char) (x : Char) (t : List Char)
    (hw : ∀ c ∈ w, isWsChar c = true) (hx : isWsChar x = false) :
    skipWs (w ++ x :: t) = x :: t := by
  induction w with
  | nil => simp [skipWs, List.dropWhile_cons, hx]
  | cons c w ih =>
    have hc := hw c (List.mem_cons_self c w)
    rw [List.cons_append]
    show (c :: (w ++ x :: t)).dropWhile isWsChar = x :: t
    rw [List.dropWhile_cons, if_pos (by rw [hc])]
    exact ih (fun c hcw => hw c (List.mem_cons_of_mem _ hcw))

theorem takeWhile_append_of (q : Char → Bool) (ds : List Char) (x : Char)
    (t : List Char) (hds : ∀ c ∈ ds, q c = true) (hx : q x = false) :
    (ds ++ x :: t).takeWhile q = ds ∧ (ds ++ x :: t).dropWhile q = x :: t := by
  induction ds with
  | nil => simp [List.takeWhile_cons, List.dropWhile_cons, hx]
  | cons d ds ih =>
    have hd := hds d (List.mem_cons_self d ds)
    have h2 := ih (fun c hc => hds c (List.mem_cons_of_mem _ hc))
    rw [List.cons_append, List.takeWhile_cons, List.dropWhile_cons]
    simp [hd, h2.1, h2.2]

theorem matchCI_map (f : Char → Char) (hf : ∀ c, (f c).toLower = c.toLower) :
    ∀ (name rest : List Char),
      matchCI (name.map Char.toLower) (name.map f ++ rest) = some rest := by
  intro name
  induction name with
  | nil => intro rest; rfl
  | cons c cs ih =>
    intro rest
    simp only [List.map_cons, List.cons_append, matchCI, hf c, if_pos rfl]
    exact ih rest

theorem matchCI_map_none (f : Char → Char) (hf : ∀ c, (f c).toLower = c.toLower) :
    ∀ (pat name rest : List Char),
      ¬ (pat <+: name.map Char.toLower) → ¬ (name.map Char.toLower <+: pat) →
      matchCI pat (name.map f ++ rest) = none := by
  intro pat
  induction pat with
  | nil =>
    intro name rest h1 _
    exact absurd List.nil_prefix h1
  | cons p ps ih =>
    intro name rest h1 h2
    cases name with
    | nil =>
      simp only [List.map_nil] at h2
      exact absurd List.nil_prefix h2
    | cons c cs =>
      simp only [List.map_cons, List.cons_append, matchCI, hf c]
      by_cases hc : c.toLower = p
      · rw [if_pos hc]
        apply ih cs rest
        · intro hpre
          exact h1 (by simpa [List.cons_prefix_cons, hc] using hpre)
        · intro hpre
          exact h2 (by simpa [List.cons_prefix_cons, hc] using hpre)
      · rw [if_neg hc]

theorem colonAfterWs_ws (w : List Char) (rest : List Char)
    (hw : ∀ c ∈ w, isWsChar c = true) :
    colonAfterWs (w ++ ':' :: rest) = true := by
  unfold colonAfterWs
  rw [skipWs_ws_cons w ':' rest hw (by decide)]
  rfl

theorem parseOrdinal_digits (ds : List Char) (pc : Char) (t : List Char)
    (hds : ds ≠ []) (hall : ∀ c ∈ ds, isDigitChar c = true)
    (hpc : pc = '.' ∨ pc = ')') :
    parseOrdinal (ds ++ pc :: t) = some (skipWs t) := by
  have hpcd : isDigitChar pc = false := by
    rcases hpc with h | h <;> subst h <;> decide
  obtain ⟨htake, hdrop⟩ := takeWhile_append_of isDigitChar ds pc t hall hpcd
  have hb : (pc = '.' || pc = ')') = true := by
    rcases hpc with h | h <;> subst h <;> decide
  unfold parseOrdinal
  rw [htake, hdrop]
  cases ds with
  | nil => exact absurd rfl hds
  | cons d ds2 => simp [hb]

theorem parseOrdinal_not_digit (x : Char) (t : List Char)
    (hx : isDigitChar x = false) : parseOrdinal (x :: t) = none := by
  unfold parseOrdinal
  simp [List.takeWhile, hx]

theorem tryName_map (f : Char → Char) (hf : ∀ c, (f c).toLower = c.toLower)
    (sec : SectionName) (w2 rest : List Char)
    (hw2 : ∀ c ∈ w2, isWsChar c = true) :
    tryName ((sectionTitle sec).data.map f ++ (w2 ++ ':' :: rest)) = some sec := by
  have hcolon := colonAfterWs_ws w2 rest hw2
  cases sec
  · have h1 : matchCI "general outlook".data
        ("General Outlook".data.map f ++ (w2 ++ ':' :: rest)) =
        some (w2 ++ ':' :: rest) := by
      rw [show "general outlook".data = "General Outlook".data.map Char.toLower
        from by decide]
      exact matchCI_map f hf _ _
    show tryName ("General Outlook".data.map f ++ (w2 ++ ':' :: rest)) =
      some SectionName.outlook
    unfold tryName
    rw [h1]
    simp [hcolon]
  · have h0 : matchCI "general outlook".data
        ("Potential Benefits and Risks".data.map f ++ (w2 ++ ':' :: rest)) = none :=
      matchCI_map_none f hf _ _ _ (by decide) (by decide)
    have h1 : matchCI "potential benefits and risks".data
        ("Potential Benefits and Risks".data.map f ++ (w2 ++ ':' :: rest)) =
        some (w2 ++ ':' :: rest) := by
      rw [show "potential benefits and risks".data =
        "Potential Benefits and Risks".data.map Char.toLower from by decide]
      exact matchCI_map f hf _ _
    show tryName ("Potential Benefits and Risks".data.map f ++ (w2 ++ ':' :: rest)) =
      some SectionName.benefits
    unfold tryName
    rw [h0, h1]
    simp [hcolon]
  · have h0 : matchCI "general outlook".data
        ("Steps to Adapt".data.map f ++ (w2 ++ ':' :: rest)) = none :=
      matchCI_map_none f hf _ _ _ (by decide) (by decide)
    have h1 : matchCI "potential benefits and risks".data
        ("Steps to Adapt".data.map f ++ (w2 ++ ':' :: rest)) = none :=
      matchCI_map_none f hf _ _ _ (by decide) (by decide)
    have h2 : matchCI "steps to adapt".data
        ("Steps to Adapt".data.map f ++ (w2 ++ ':' :: rest)) =
        some (w2 ++ ':' :: rest) := by
      rw [show "steps to adapt".data = "Steps to Adapt".data.map Char.toLower
        from by decide]
      exact matchCI_map f hf _ _
    show tryName ("Steps to Adapt".data.map f ++ (w2 ++ ':' :: rest)) =
      some SectionName.steps
    unfold tryName
    rw [h0, h1, h2]
    simp [hcolon]
  · have h0 : matchCI "general outlook".data
        ("Placard".data.map f ++ (w2 ++ ':' :: rest)) = none :=
      matchCI_map_none f hf _ _ _ (by decide) (by decide)
    have h1 : matchCI "potential benefits and risks".data
        ("Placard".data.map f ++ (w2 ++ ':' :: rest)) = none :=
      matchCI_map_none f hf _ _ _ (by decide) (by decide)
    have h2 : matchCI "steps to adapt".data
        ("Placard".data.map f ++ (w2 ++ ':' :: rest)) = none :=
      matchCI_map_none f hf _ _ _ (by decide) (by decide)
    have h3 : matchCI "placard".data
        ("Placard".data.map f ++ (w2 ++ ':' :: rest)) =
        some (w2 ++ ':' :: rest) := by
      rw [show "placard".data = "Placard".data.map Char.toLower from by decide]
      exact matchCI_map f hf _ _
    show tryName ("Placard".data.map f ++ (w2 ++ ':' :: rest)) =
      some SectionName.placard
    unfold tryName
    rw [h0, h1, h2, h3]
    simp [hcolon]

theorem skipWs_title (f : Char → Char) (hf : ∀ c, (f c).toLower = c.toLower)
    (sec : SectionName) (w1 tail : List Char)
    (hw1 : ∀ c ∈ w1, isWsChar c = true) :
    skipWs (w1 ++ ((sectionTitle sec).data.map f ++ tail)) =
      (sectionTitle sec).data.map f ++ tail := by
  cases sec
  · exact skipWs_ws_cons w1 (f 'G') _ hw1 (map_not_ws f hf 'G' (by decide))
  · exact skipWs_ws_cons w1 (f 'P') _ hw1 (map_not_ws f hf 'P' (by decide))
  · exact skipWs_ws_cons w1 (f 'S') _ hw1 (map_not_ws f hf 'S' (by decide))
  · exact skipWs_ws_cons w1 (f 'P') _ hw1 (map_not_ws f hf 'P' (by decide))

theorem parseOrdinal_title (f : Char → Char)
    (hf : ∀ c, (f c).toLower = c.toLower) (sec : SectionName) (tail : List Char) :
    parseOrdinal ((sectionTitle sec).data.map f ++ tail) = none := by
  cases sec
  · exact parseOrdinal_not_digit (f 'G') _ (map_not_digit f hf 'G' (by decide))
  · exact parseOrdinal_not_digit (f 'P') _ (map_not_digit f hf 'P' (by decide))
  · exact parseOrdinal_not_digit (f 'S') _ (map_not_digit f hf 'S' (by decide))
  · exact parseOrdinal_not_digit (f 'P') _ (map_not_digit f hf 'P' (by decide))

theorem headerOf_plain (sec : SectionName) (f : Char → Char) (w2 rest : List Char)
    (hf : ∀ c, (f c).toLower = c.toLower) (hw2 : ∀ c ∈ w2, isWsChar c = true) :
    headerOf ((sectionTitle sec).data.map f ++ (w2 ++ ':' :: rest)) = some sec := by
  have htry := tryName_map f hf sec w2 rest hw2
  unfold headerOf
  rw [parseOrdinal_title f hf sec (w2 ++ ':' :: rest)]
  exact htry

theorem headerOf_decorated (sec : SectionName) (ds : List Char) (pc : Char)
    (f : Char → Char) (w1 w2 rest : List Char)
    (hds : ds ≠ []) (hall : ∀ c ∈ ds, isDigitChar c = true)
    (hpc : pc = '.' ∨ pc = ')') (hf : ∀ c, (f c).toLower = c.toLower)
    (hw1 : ∀ c ∈ w1, isWsChar c = true) (hw2 : ∀ c ∈ w2, isWsChar c = true) :
    headerOf (ds ++ pc ::
        (w1 ++ ((sectionTitle sec).data.map f ++ (w2 ++ ':' :: rest)))) =
      some sec := by
  have htry := tryName_map f hf sec w2 rest hw2
  have hsw := skipWs_title f hf sec w1 (w2 ++ ':' :: rest) hw1
  unfold headerOf
  rw [parseOrdinal_digits ds pc _ hds hall hpc, hsw]
  show (match tryName ((sectionTitle sec).data.map f ++ (w2 ++ ':' :: rest)) with
    | some s => some s
    | none => tryName (ds ++ pc ::
        (w1 ++ ((sectionTitle sec).data.map f ++ (w2 ++ ':' :: rest))))) = some sec
  rw [htry]

/-! ## Lemmas about the line scanner -/

theorem getSec_setSec_same (s : SectionName) (v : Option (List Char))
    (a : SectionsAcc) : getSec s (setSec s v a) = v := by
  cases s <;> rfl

theorem getSec_setSec_ne (s t : SectionName) (v : Option (List Char))
    (a : SectionsAcc) (h : s ≠ t) : getSec s (setSec t v a) = getSec s a := by
  cases s <;> cases t <;> first | rfl | exact absurd rfl h

theorem setSec_getSec_self (s : SectionName) (a : SectionsAcc) (v : List Char)
    (h : getSec s a = some v) : setSec s (some v) a = a := by
  obtain ⟨o, b, st, pl⟩ := a
  cases s <;> simp_all [getSec, setSec]

theorem setSec_setSec_same (s : SectionName) (v w : Option (List Char))
    (a : SectionsAcc) : setSec s w (setSec s v a) = setSec s w a := by
  cases s <;> rfl

theorem stepLine_header (st : Option SectionName × SectionsAcc)
    (h : List Char) (s : SectionName) (hh : headerOf (trimChars h) = some s) :
    stepLine st h = (some s, setSec s (some []) st.2) := by
  simp [stepLine, hh]

theorem stepLine_data (st : Option SectionName × SectionsAcc) (s : SectionName)
    (l : List Char) (v : List Char) (hl : headerOf (trimChars l) = none)
    (hst : st.1 = some s) (hv : getSec s st.2 = some v) :
    stepLine st l =
      (some s, setSec s (some (v ++ trimChars l ++ ['\n'])) st.2) := by
  simp [stepLine, hl, hst, hv]

/-- Folding the line loop over a run of non-header lines while section `s`
    is current appends each trimmed line plus `"\n"` to the accumulator of
    `s` and leaves every other section untouched. -/
theorem foldl_stepLine_body (ys : List (List Char)) (s : SectionName)
    (acc : SectionsAcc) (v : List Char) (hv : getSec s acc = some v)
    (hys : ∀ l ∈ ys, headerOf (trimChars l) = none) :
    ys.foldl stepLine (some s, acc) =
      (some s, setSec s (some (v ++ bodyOf ys)) acc) := by
  induction ys generalizing acc v with
  | nil =>
    simp [bodyOf, setSec_getSec_self s acc v hv]
  | cons l ys ih =>
    rw [List.foldl_cons,
      stepLine_data (some s, acc) s l v (hys l (List.mem_cons_self l ys)) rfl hv]
    rw [ih (setSec s (some (v ++ trimChars l ++ ['\n'])) acc)
      (v ++ trimChars l ++ ['\n']) (getSec_setSec_same ..)
      (fun l hl => hys l (List.mem_cons_of_mem _ hl))]
    rw [setSec_setSec_same]
    simp [bodyOf]

theorem sectionContent_some (t : List Char) :
    sectionContent (some t) = trimChars t := by
  by_cases h : t = []
  · simp [sectionContent, h, trimChars]
  · simp [sectionContent, h]

/-- C10: if a recognized header occurs again, the scanner resets that
section's accumulated content, so the section holds exactly the (trimmed,
newline-terminated) lines following the last occurrence of its header —
whatever lines (including earlier occurrences of the same header and their
content) came before. -/
theorem c10_duplicate_header (xs ys : List (List Char)) (h : List Char)
    (s : SectionName) (hh : headerOf (trimChars h) = some s)
    (hys : ∀ l ∈ ys, headerOf (trimChars l) = none) :
    getSec s (scanLines (xs ++ h :: ys)) = some (bodyOf ys) ∧
    sectionContent (getSec s (scanLines (xs ++ h :: ys))) =
      trimChars (bodyOf ys) := by
  unfold scanLines
  rw [List.foldl_append, List.foldl_cons,
    stepLine_header (xs.foldl stepLine (none, initAcc)) h s hh,
    foldl_stepLine_body ys s _ [] (getSec_setSec_same ..) hys,
    setSec_setSec_same]
  constructor
  · simp [getSec_setSec_same]
  · simp [getSec_setSec_same, sectionContent_some]

/-! ## Lemmas about the text cleaner: a non-whitespace character survives -/

theorem hasNonWs_all (l : List Char) (h : hasNonWs l = true) :
    l.all isWsChar = false := by
  obtain ⟨x, hx, hnx⟩ := List.any_eq_true.mp h
  cases hall : l.all isWsChar with
  | false => rfl
  | true =>
    have := List.all_eq_true.mp hall x hx
    simp [this] at hnx

theorem dropWhile_ws_hasNonWs (l : List Char) :
    l.dropWhile isWsChar = [] ∨ hasNonWs (l.dropWhile isWsChar) = true := by
  induction l with
  | nil => exact Or.inl rfl
  | cons c cs ih =>
    rw [List.dropWhile_cons]
    by_cases hc : isWsChar c = true
    · simpa [hc] using ih
    · right
      simp only [Bool.not_eq_true] at hc
      simp [hc, hasNonWs]

theorem hasNonWs_reverse (l : List Char) :
    hasNonWs l.reverse = hasNonWs l := by
  simp [hasNonWs]

theorem trimChars_hasNonWs (cs : List Char) (h : trimChars cs ≠ []) :
    hasNonWs (trimChars cs) = true := by
  unfold trimChars at h ⊢
  rcases dropWhile_ws_hasNonWs ((cs.dropWhile isWsChar).reverse) with h1 | h1
  · rw [h1] at h
    exact absurd rfl h
  · rw [hasNonWs_reverse]
    exact h1

theorem hasNonWs_cons (c : Char) (cs : List Char) :
    hasNonWs (c :: cs) = (!isWsChar c || hasNonWs cs) := by
  simp [hasNonWs]

theorem hasNonWs_append (l1 l2 : List Char) :
    hasNonWs (l1 ++ l2) = (hasNonWs l1 || hasNonWs l2) := by
  simp [hasNonWs]

theorem bulletizeGo_skipws_hasNonWs (cs : List Char) :
    hasNonWs (bulletizeGo .skipws cs) = true := by
  induction cs with
  | nil => decide
  | cons c cs ih =>
    rw [bulletizeGo.eq_8]
    by_cases hw : isWsChar c = true
    · rw [if_pos hw]
      exact ih
    · rw [if_neg hw]
      simp only [hasNonWs_append, Bool.or_eq_true]
      exact Or.inl (by decide)

theorem bulletizeGo_cap_hasNonWs (cs : List Char) :
    hasNonWs (bulletizeGo .cap cs) = true := by
  induction cs with
  | nil => decide
  | cons c cs ih =>
    rw [bulletizeGo.eq_9]
    by_cases hc : c = '\n'
    · rw [if_pos hc]
      simp only [hasNonWs_append, Bool.or_eq_true]
      exact Or.inl (by decide)
    · rw [if_neg hc, hasNonWs_cons]
      simp only [Bool.or_eq_true]
      exact Or.inr ih

theorem bulletizeGo_hasNonWs : ∀ (m : BMode) (cs : List Char),
    (m = .start ∨ m = .mid) → hasNonWs cs = true →
    hasNonWs (bulletizeGo m cs) = true := by
  intro m cs
  induction m, cs using bulletizeGo.induct with
  | case1 => rintro (h | h) - <;> exact BMode.noConfusion h
  | case2 => rintro (h | h) - <;> exact BMode.noConfusion h
  | case3 x hx1 hx2 =>
    intro _ h
    simp [hasNonWs] at h
  | case4 c cs hw ih =>
    intro _ _
    rw [bulletizeGo.eq_4, if_pos hw]
    exact bulletizeGo_skipws_hasNonWs (c :: cs)
  | case5 c cs hw ih =>
    intro _ _
    rw [bulletizeGo.eq_4, if_neg hw, hasNonWs_cons]
    simp only [Bool.or_eq_true]
    exact Or.inl (by decide)
  | case6 =>
    intro _ _
    decide
  | case7 c cs hne1 hne2 ih =>
    intro _ h
    rw [bulletizeGo.eq_6 c cs hne1 hne2, hasNonWs_cons]
    simp only [Bool.or_eq_true]
    by_cases hw : isWsChar c = true
    · right
      apply ih (by by_cases hc : c = '\n' <;> simp [hc])
      rw [hasNonWs_cons] at h
      simp only [Bool.or_eq_true] at h
      rcases h with h | h
      · rw [hw] at h
        simp at h
      · exact h
    · left
      simp [hw]
  | case8 c cs ih =>
    intro _ h
    rw [bulletizeGo.eq_7, hasNonWs_cons]
    simp only [Bool.or_eq_true]
    by_cases hw : isWsChar c = true
    · right
      apply ih (by by_cases hc : c = '\n' <;> simp [hc])
      rw [hasNonWs_cons] at h
      simp only [Bool.or_eq_true] at h
      rcases h with h | h
      · rw [hw] at h
        simp at h
      · exact h
    · left
      simp [hw]
  | case9 c cs hw ih => rintro (h | h) - <;> exact BMode.noConfusion h
  | case10 c cs hw ih => rintro (h | h) - <;> exact BMode.noConfusion h
  | case11 cs ih => rintro (h | h) - <;> exact BMode.noConfusion h
  | case12 c cs hnl ih => rintro (h | h) - <;> exact BMode.noConfusion h
theorem splitNlChars_ne_nil (cs : List Char) : splitNlChars cs ≠ [] := by
  induction cs using splitNlChars.induct with
  | case1 => simp [splitNlChars]
  | case2 cs ih => simp [splitNlChars]
  | case3 c cs hne l ls heq ih =>
    rw [splitNlChars.eq_3 c cs hne, heq]
    simp
  | case4 c cs hne heq ih =>
    rw [splitNlChars.eq_3 c cs hne, heq]
    simp

theorem splitNl_any (cs : List Char) (h : hasNonWs cs = true) :
    (splitNlChars cs).any hasNonWs = true := by
  induction cs using splitNlChars.induct with
  | case1 => simp [hasNonWs] at h
  | case2 cs ih =>
    rw [splitNlChars.eq_2]
    rw [hasNonWs_cons] at h
    simp only [Bool.or_eq_true] at h
    rcases h with h | h
    · simp [isWsChar] at h
    · simp only [List.any_cons, Bool.or_eq_true]
      exact Or.inr (ih h)
  | case3 c cs hne l ls heq ih =>
    rw [splitNlChars.eq_3 c cs hne, heq]
    rw [hasNonWs_cons] at h
    simp only [Bool.or_eq_true] at h
    simp only [List.any_cons, Bool.or_eq_true, hasNonWs_cons]
    rcases h with h | h
    · exact Or.inl (Or.inl h)
    · have := ih h
      rw [heq] at this
      simp only [List.any_cons, Bool.or_eq_true] at this
      rcases this with h2 | h2
      · exact Or.inl (Or.inr h2)
      · exact Or.inr h2
  | case4 c cs hne heq ih =>
    exact absurd heq (splitNlChars_ne_nil cs)

theorem any_imp {α : Type} (p q : α → Bool)
    (hpq : ∀ x, p x = true → q x = true) :
    ∀ l : List α, l.any p = true → l.any q = true := by
  intro l h
  obtain ⟨x, hx, hpx⟩ := List.any_eq_true.mp h
  exact List.any_eq_true.mpr ⟨x, hx, hpq x hpx⟩

theorem wrapAux_any (b : Bool) (lines : List (List Char))
    (h : lines.any hasNonWs = true) : (wrapAux b lines).any hasNonWs = true := by
  induction lines generalizing b with
  | nil => simp at h
  | cons l ls ih =>
    simp only [List.any_cons, Bool.or_eq_true] at h
    rw [wrapAux]
    by_cases hp : "<li>".data.isPrefixOf l = true
    · rw [if_pos hp]
      by_cases hb : b = true
      · subst hb
        rw [if_pos rfl]
        simp only [List.any_cons, Bool.or_eq_true]
        rcases h with h | h
        · exact Or.inl h
        · exact Or.inr (ih true h)
      · simp only [Bool.not_eq_true] at hb
        subst hb
        rw [if_neg (by simp)]
        simp only [List.any_cons, Bool.or_eq_true]
        rcases h with h | h
        · exact Or.inr (Or.inl h)
        · exact Or.inr (Or.inr (ih true h))
    · rw [if_neg hp]
      by_cases hb : b = true
      · subst hb
        rw [if_pos rfl]
        simp only [List.any_cons, Bool.or_eq_true]
        rcases h with h | h
        · exact Or.inr (Or.inl h)
        · exact Or.inr (Or.inr (ih false h))
      · simp only [Bool.not_eq_true] at hb
        subst hb
        rw [if_neg (by simp)]
        simp only [List.any_cons, Bool.or_eq_true]
        rcases h with h | h
        · exact Or.inl h
        · exact Or.inr (ih false h)

theorem joinNl_any (ls : List (List Char)) (h : ls.any hasNonWs = true) :
    hasNonWs (joinNl ls) = true := by
  induction ls using joinNl.induct with
  | case1 => simp at h
  | case2 l => simpa using h
  | case3 l ls hne ih =>
    rw [joinNl.eq_3 l ls hne]
    simp only [List.any_cons, Bool.or_eq_true] at h
    rw [hasNonWs_append, hasNonWs_cons]
    simp only [Bool.or_eq_true]
    rcases h with h | h
    · exact Or.inl h
    · exact Or.inr (Or.inr (ih h))

theorem wrapLists_hasNonWs (cs : List Char) (h : hasNonWs cs = true) :
    hasNonWs (wrapLists cs) = true := by
  unfold wrapLists
  exact joinNl_any _ (wrapAux_any false _ (splitNl_any cs h))

theorem boldGo_hasNonWs (fuel : Nat) (cs : List Char)
    (h : hasNonWs cs = true) : hasNonWs (boldGo fuel cs) = true := by
  induction fuel, cs using boldGo.induct with
  | case1 fuel => simp [hasNonWs] at h
  | case2 cs hne =>
    rw [boldGo.eq_2 cs hne]
    exact h
  | case3 fuel cs g rest hclose ih =>
    rw [boldGo.eq_3, hclose]
    simp only [hasNonWs_append, Bool.or_eq_true]
    have hA : hasNonWs "<strong>".data = true := by decide
    tauto
  | case4 fuel cs hclose ih =>
    rw [boldGo.eq_3, hclose]
    simp only [hasNonWs_cons, Bool.or_eq_true]
    exact Or.inl (by decide)
  | case5 fuel c cs hne ih =>
    rw [boldGo.eq_4 fuel c cs hne, hasNonWs_cons]
    simp only [Bool.or_eq_true]
    rw [hasNonWs_cons] at h
    simp only [Bool.or_eq_true] at h
    rcases h with h | h
    · exact Or.inl h
    · exact Or.inr (ih h)

theorem italGo_hasNonWs (fuel : Nat) (cs : List Char)
    (h : hasNonWs cs = true) : hasNonWs (italGo fuel cs) = true := by
  induction fuel, cs using italGo.induct with
  | case1 fuel => simp [hasNonWs] at h
  | case2 cs hne =>
    rw [italGo.eq_2 cs hne]
    exact h
  | case3 fuel cs g rest hclose ih =>
    rw [italGo.eq_3, hclose]
    simp only [hasNonWs_append, Bool.or_eq_true]
    have hA : hasNonWs "<em>".data = true := by decide
    tauto
  | case4 fuel cs hclose ih =>
    rw [italGo.eq_3, hclose]
    simp only [hasNonWs_cons, Bool.or_eq_true]
    exact Or.inl (by decide)
  | case5 fuel c cs hne ih =>
    rw [italGo.eq_4 fuel c cs hne, hasNonWs_cons]
    simp only [Bool.or_eq_true]
    rw [hasNonWs_cons] at h
    simp only [Bool.or_eq_true] at h
    rcases h with h | h
    · exact Or.inl h
    · exact Or.inr (ih h)

theorem h4Line_hasNonWs (l : List Char) (h : hasNonWs l = true) :
    hasNonWs (h4Line l) = true := by
  unfold h4Line
  by_cases h1 : "Benefits:".data.isPrefixOf l = true
  · rw [if_pos h1]
    simp only [hasNonWs_append, Bool.or_eq_true]
    exact Or.inl (by decide)
  · rw [if_neg h1]
    by_cases h2 : "Risks:".data.isPrefixOf l = true
    · rw [if_pos h2]
      simp only [hasNonWs_append, Bool.or_eq_true]
      exact Or.inl (by decide)
    · rw [if_neg h2]
      exact h

theorem h4Repl_hasNonWs (cs : List Char) (h : hasNonWs cs = true) :
    hasNonWs (h4Repl cs) = true := by
  unfold h4Repl
  apply joinNl_any
  rw [List.any_map]
  exact any_imp _ _ (fun l hl => h4Line_hasNonWs l hl) _ (splitNl_any cs h)

theorem numGo_hasNonWs (fuel : Nat) (b : Bool) (cs : List Char)
    (h : hasNonWs cs = true) : hasNonWs (numGo fuel b cs) = true := by
  induction fuel, b, cs using numGo.induct with
  | case1 fuel b => simp [hasNonWs] at h
  | case2 b cs hne =>
    rw [numGo.eq_2 b cs hne]
    exact h
  | case3 fuel c cs ds nlEnd rest hparse ih =>
    rw [numGo.eq_3, if_pos rfl, hparse]
    simp only [hasNonWs_append, Bool.or_eq_true]
    have hA : hasNonWs "<strong>".data = true := by decide
    tauto
  | case4 fuel c cs hparse ih =>
    rw [numGo.eq_3, if_pos rfl, hparse]
    simp only [hasNonWs_cons, Bool.or_eq_true]
    rw [hasNonWs_cons] at h
    simp only [Bool.or_eq_true] at h
    rcases h with h | h
    · exact Or.inl h
    · exact Or.inr (ih h)
  | case5 fuel atStart c cs hb ih =>
    rw [numGo.eq_3, if_neg hb, hasNonWs_cons]
    simp only [Bool.or_eq_true]
    rw [hasNonWs_cons] at h
    simp only [Bool.or_eq_true] at h
    rcases h with h | h
    · exact Or.inl h
    · exact Or.inr (ih h)

theorem cleanChars_nil_of_trim_nil (cs : List Char)
    (h : trimChars (collapseBlank (normCRLF cs)) = []) : cleanChars cs = [] := by
  by_cases hnil : cs = []
  · simp [cleanChars, hnil]
  · unfold cleanChars
    rw [if_neg hnil, h]
    rfl

theorem cleanChars_hasNonWs_or_nil (cs : List Char) :
    cleanChars cs = [] ∨ hasNonWs (cleanChars cs) = true := by
  by_cases hnil : cs = []
  · exact Or.inl (by simp [cleanChars, hnil])
  · by_cases ht : trimChars (collapseBlank (normCRLF cs)) = []
    · exact Or.inl (cleanChars_nil_of_trim_nil cs ht)
    · right
      unfold cleanChars
      rw [if_neg hnil]
      apply numGo_hasNonWs
      apply h4Repl_hasNonWs
      apply italGo_hasNonWs
      apply boldGo_hasNonWs
      apply wrapLists_hasNonWs
      unfold bulletize
      apply bulletizeGo_hasNonWs _ _ (Or.inl rfl)
      exact trimChars_hasNonWs _ ht

theorem cleanChars_wsOnly (cs : List Char)
    (h : (cleanChars cs).all isWsChar = true) : cleanChars cs = [] := by
  rcases cleanChars_hasNonWs_or_nil cs with h1 | h1
  · exact h1
  · rw [hasNonWs_all _ h1] at h
    exact absurd h (by simp)

theorem fieldOf_buildReport (profession raw : String) (s : SectionName) :
    fieldOf (buildReport profession raw) s =
      assembleField (cleanedSection raw s) (fallbackFor s) := by
  cases s <;> rfl

/-- C1: every text field of the report assembled by `handleMistralAction`
is populated: it equals the cleaned extracted section content when that
content is not empty or whitespace-only (a whitespace-only cleaned content
is necessarily empty), and the fixed literal fallback string for that
section otherwise; no field is ever the empty string. -/
theorem c1_report_fields (profession raw : String) (s : SectionName) :
    fieldOf (buildReport profession raw) s ≠ "" ∧
    ((cleanedSection raw s).all isWsChar = true →
      fieldOf (buildReport profession raw) s = fallbackFor s) ∧
    ((cleanedSection raw s).all isWsChar = false →
      fieldOf (buildReport profession raw) s =
        String.mk (cleanedSection raw s)) := by
  rw [fieldOf_buildReport]
  by_cases hc : cleanedSection raw s = []
  · refine ⟨?_, ?_, ?_⟩
    · rw [assembleField, if_pos hc]
      cases s <;> decide
    · intro _
      rw [assembleField, if_pos hc]
    · intro hws
      rw [hc] at hws
      simp at hws
  · refine ⟨?_, ?_, ?_⟩
    · rw [assembleField, if_neg hc]
      intro heq
      apply hc
      have h2 := congrArg String.data heq
      simpa using h2
    · intro hws
      exact absurd (cleanChars_wsOnly _ hws) hc
    · intro _
      rw [assembleField, if_neg hc]

theorem c1_report_fields_witness :
    ((cleanedSection "" .outlook).all isWsChar = true ∧
      fieldOf (buildReport "Nurse" "") .outlook = fallbackFor .outlook) ∧
    ((cleanedSection "General Outlook:\nGreat" .outlook).all isWsChar = false ∧
      fieldOf (buildReport "Nurse" "General Outlook:\nGreat") .outlook =
        String.mk (cleanedSection "General Outlook:\nGreat" .outlook)) :=
  ⟨⟨by decide, (c1_report_fields "Nurse" "" .outlook).2.1 (by decide)⟩,
   ⟨by decide, (c1_report_fields "Nurse" "General Outlook:\nGreat" .outlook).2.2
      (by decide)⟩⟩

/-- C8 counterexample: a header whose internal whitespace is doubled
(`"General  Outlook:"`) is not recognized, so for a completion using that
decoration the outlook body is not extracted into its field — the claim
that every combination of the listed decorations is tolerated is false. -/
theorem c8_header_counterexample :
    getSec .outlook (parseSections "General  Outlook:\nbody") = none ∧
    sectionContent (getSec .outlook (parseSections "General  Outlook:\nbody")) = [] ∧
    trimChars "body".data ≠ [] := by
  refine ⟨by decide, by decide, by decide⟩

/-- C8 (amended): the header recognizer accepts, for each of the four
section names, any casing of the header text (any letter-mapping that
preserves lower-case letters), an optional ordinal prefix `\d+[.)]` followed
by optional whitespace, optional whitespace before the colon, and arbitrary
trailing text after the colon (in particular trailing asterisks); but it
does not tolerate doubled internal whitespace in the header name, nor
emphasis markers adjacent to the header text. -/
theorem c8_header_tolerance :
    (∀ (sec : SectionName) (ds : List Char) (pc : Char) (f : Char → Char)
      (w1 w2 rest : List Char),
      ds ≠ [] → (∀ c ∈ ds, isDigitChar c = true) → (pc = '.' ∨ pc = ')') →
      (∀ c, (f c).toLower = c.toLower) →
      (∀ c ∈ w1, isWsChar c = true) → (∀ c ∈ w2, isWsChar c = true) →
      headerOf (ds ++ pc ::
          (w1 ++ ((sectionTitle sec).data.map f ++ (w2 ++ ':' :: rest)))) =
        some sec) ∧
    (∀ (sec : SectionName) (f : Char → Char) (w2 rest : List Char),
      (∀ c, (f c).toLower = c.toLower) → (∀ c ∈ w2, isWsChar c = true) →
      headerOf ((sectionTitle sec).data.map f ++ (w2 ++ ':' :: rest)) = some sec) ∧
    headerOf "General  Outlook:".data = none ∧
    headerOf "**General Outlook:**".data = none ∧
    headerOf "General Outlook**:".data = none := by
  refine ⟨?_, ?_, by decide, by decide, by decide⟩
  · intro sec ds pc f w1 w2 rest hds hall hpc hf hw1 hw2
    exact headerOf_decorated sec ds pc f w1 w2 rest hds hall hpc hf hw1 hw2
  · intro sec f w2 rest hf hw2
    exact headerOf_plain sec f w2 rest hf hw2

theorem c8_header_tolerance_witness :
    headerOf (['1'] ++ ')' ::
        ([' '] ++ (("Placard".data.map (fun c => if c = 'a' then 'A' else c)) ++
          ([] ++ ':' :: " **".data)))) = some .placard ∧
    headerOf (("General Outlook".data.map (fun c => c)) ++ ([' '] ++ ':' :: [])) =
      some .outlook := by
  constructor
  · exact c8_header_tolerance.1 .placard ['1'] ')'
      (fun c => if c = 'a' then 'A' else c) [' '] [] " **".data
      (by decide) (by decide) (Or.inr rfl)
      (fun c => by
        by_cases h : c = 'a'
        · subst h; decide
        · simp [h])
      (by decide) (by decide)
  · exact c8_header_tolerance.2.1 .outlook (fun c => c) [' '] []
      (fun c => rfl) (by decide)

/-- C4 counterexample: for the filler bodies `"Placard: hijack"`, `"b"`,
`"c"`, `"d"` the synthetic completion built by concatenating the four
expected headers with these bodies does not round-trip: the first body is
itself taken for a `Placard` header line, so the extracted outlook section
is empty instead of the body (even modulo whitespace trimming). -/
theorem c4_roundtrip_counterexample :
    sectionContent (getSec .outlook (parseSections
      "General Outlook:\nPlacard: hijack\nPotential Benefits and Risks:\nb\nSteps to Adapt:\nc\nPlacard:\nd")) = [] ∧
    trimChars "Placard: hijack".data = "Placard: hijack".data ∧
    "Placard: hijack".data ≠ [] := by
  refine ⟨by decide, by decide, by decide⟩

/-- C4 (amended): for every numbering style, every casing of the header
text and every choice of four filler bodies none of whose lines is itself
recognized as a section-header line, parsing the synthetic completion whose
lines are the four expected headers each followed by its body's lines
yields exactly the four bodies, each in its own field, with each body line
individually whitespace-trimmed and the whole body trimmed. -/
theorem c4_roundtrip_amended (raw : String) (h1 h2 h3 h4 : List Char)
    (L1 L2 L3 L4 : List (List Char))
    (hsplit : splitNlChars (preprocessChars raw.data) =
      h1 :: (L1 ++ h2 :: (L2 ++ h3 :: (L3 ++ h4 :: L4))))
    (hh1 : headerOf (trimChars h1) = some .outlook)
    (hh2 : headerOf (trimChars h2) = some .benefits)
    (hh3 : headerOf (trimChars h3) = some .steps)
    (hh4 : headerOf (trimChars h4) = some .placard)
    (hL1 : ∀ l ∈ L1, headerOf (trimChars l) = none)
    (hL2 : ∀ l ∈ L2, headerOf (trimChars l) = none)
    (hL3 : ∀ l ∈ L3, headerOf (trimChars l) = none)
    (hL4 : ∀ l ∈ L4, headerOf (trimChars l) = none) :
    sectionContent (getSec .outlook (parseSections raw)) = trimChars (bodyOf L1) ∧
    sectionContent (getSec .benefits (parseSections raw)) = trimChars (bodyOf L2) ∧
    sectionContent (getSec .steps (parseSections raw)) = trimChars (bodyOf L3) ∧
    sectionContent (getSec .placard (parseSections raw)) = trimChars (bodyOf L4) := by
  unfold parseSections scanLines
  rw [hsplit]
  rw [List.foldl_cons, stepLine_header _ h1 _ hh1, List.foldl_append,
    foldl_stepLine_body L1 .outlook _ [] (getSec_setSec_same ..) hL1]
  rw [List.foldl_cons, stepLine_header _ h2 _ hh2, List.foldl_append,
    foldl_stepLine_body L2 .benefits _ [] (getSec_setSec_same ..) hL2]
  rw [List.foldl_cons, stepLine_header _ h3 _ hh3, List.foldl_append,
    foldl_stepLine_body L3 .steps _ [] (getSec_setSec_same ..) hL3]
  rw [List.foldl_cons, stepLine_header _ h4 _ hh4,
    foldl_stepLine_body L4 .placard _ [] (getSec_setSec_same ..) hL4]
  refine ⟨?_, ?_, ?_, ?_⟩ <;>
    simp [getSec, setSec, initAcc, sectionContent_some]

theorem c4_roundtrip_witness :
    sectionContent (getSec .outlook (parseSections
        "1) general OUTLOOK:\r\nAlpha one\n2. Potential Benefits and Risks:\nBeta\n\nmore beta\nsteps TO adapt:\nGamma\n4)PLACARD:\n   Delta   ")) =
      trimChars (bodyOf ["Alpha one".data]) ∧
    sectionContent (getSec .benefits (parseSections
        "1) general OUTLOOK:\r\nAlpha one\n2. Potential Benefits and Risks:\nBeta\n\nmore beta\nsteps TO adapt:\nGamma\n4)PLACARD:\n   Delta   ")) =
      trimChars (bodyOf ["Beta".data, "".data, "more beta".data]) ∧
    sectionContent (getSec .steps (parseSections
        "1) general OUTLOOK:\r\nAlpha one\n2. Potential Benefits and Risks:\nBeta\n\nmore beta\nsteps TO adapt:\nGamma\n4)PLACARD:\n   Delta   ")) =
      trimChars (bodyOf ["Gamma".data]) ∧
    sectionContent (getSec .placard (parseSections
        "1) general OUTLOOK:\r\nAlpha one\n2. Potential Benefits and Risks:\nBeta\n\nmore beta\nsteps TO adapt:\nGamma\n4)PLACARD:\n   Delta   ")) =
      trimChars (bodyOf ["   Delta   ".data]) :=
  c4_roundtrip_amended
    "1) general OUTLOOK:\r\nAlpha one\n2. Potential Benefits and Risks:\nBeta\n\nmore beta\nsteps TO adapt:\nGamma\n4)PLACARD:\n   Delta   "
    "1) general OUTLOOK:".data "2. Potential Benefits and Risks:".data
    "steps TO adapt:".data "4)PLACARD:".data
    ["Alpha one".data] ["Beta".data, "".data, "more beta".data]
    ["Gamma".data] ["   Delta   ".data]
    (by decide) (by decide) (by decide) (by decide) (by decide)
    (by decide) (by decide) (by decide) (by decide)

theorem c10_duplicate_header_witness :
    getSec .placard
        (scanLines (["Placard:".data, "old text".data] ++
          "PLACARD:".data :: ["new text".data])) =
      some (bodyOf ["new text".data]) ∧
    sectionContent (getSec .placard
        (scanLines (["Placard:".data, "old text".data] ++
          "PLACARD:".data :: ["new text".data]))) =
      trimChars (bodyOf ["new text".data]) :=
  c10_duplicate_header ["Placard:".data, "old text".data] ["new text".data]
    "PLACARD:".data .placard (by decide) (by decide)

end Wwim

